import Mathlib

/-!
Shallow embedding of the team workflow dispatch engine
(`src/team/dispatcher.rs`) of the agno repository, together with theorems
settling the specification claims about it.

Modelling conventions:
* An agent adapter (`Agent::run_once`) is assumed deterministic and modelled
  as a function `String → String`.
* The dispatcher's `agents : HashMap<String, Agent>` is modelled as a
  `List PoolEntry`; the list order models the HashMap's iteration order,
  which Rust leaves unspecified (it is some permutation of the inserted
  entries, fixed for one dispatcher instance).
* Each executor additionally returns the list of agent invocations
  (agent name, input, output) in the order they occur; this instruments the
  `run_agent_silently` call sites of the source without changing them.
* The Rust `.unwrap()` in `execute_dag` (edge whose `to` id names no
  declared node) is a panic; it is modelled by an `Option` result where
  `none` stands for the panic.
-/

namespace Agno

/-- One recorded call of `run_agent_silently`: which agent ran, the input it
received, and the output it produced. -/
structure Invocation where
  agent : String
  input : String
  output : String
  deriving Repr, DecidableEq

/-- One entry of the dispatcher's agent pool: the agent's (unique) name and
its deterministic `run_once` adapter. The pool list order models the
iteration order of the `agents` HashMap. -/
structure PoolEntry where
  name : String
  run : String → String

/-- `format!("{}: {}", agent_name, output)` trace entry used by the
round-robin and parallel executors. -/
def nameEntry (name output : String) : String :=
  name ++ ": " ++ output

/-- `execute_round_robin`: each agent in the pool (HashMap iteration order)
gets a turn on the unmodified task; one trace entry per agent. -/
def execute_round_robin (pool : List PoolEntry) (task : String) :
    List String × List Invocation :=
  match pool with
  | [] => ([], [])
  | e :: rest =>
    let output := e.run task
    let r := execute_round_robin rest task
    (nameEntry e.name output :: r.1,
      { agent := e.name, input := task, output := output } :: r.2)

/-- `execute_parallel`: in the source, currently identical to round-robin at
the data level (agents are run sequentially on the unmodified task). -/
def execute_parallel (pool : List PoolEntry) (task : String) :
    List String × List Invocation :=
  match pool with
  | [] => ([], [])
  | e :: rest =>
    let output := e.run task
    let r := execute_parallel rest task
    (nameEntry e.name output :: r.1,
      { agent := e.name, input := task, output := output } :: r.2)

/-- `self.agents.get_mut(agent_name)`: lookup of an agent by exact name. -/
def lookupAgent (pool : List PoolEntry) (name : String) : Option PoolEntry :=
  pool.find? (fun e => e.name == name)

/-- Loop body of `execute_chain_of_thought`: iterate over the collected key
list, look each key up in the pool, feed each agent the previous output
(`current_input`), and record `"Step {i+1} ({name}): {output}"` entries. -/
def cotLoop (pool : List PoolEntry) :
    List String → Nat → String → List String × List Invocation
  | [], _, _ => ([], [])
  | name :: restNames, i, current_input =>
    match lookupAgent pool name with
    | some e =>
      let output := e.run current_input
      let r := cotLoop pool restNames (i + 1) output
      (("Step " ++ toString (i + 1) ++ " (" ++ name ++ "): " ++ output) :: r.1,
        { agent := name, input := current_input, output := output } :: r.2)
    | none =>
      let r := cotLoop pool restNames (i + 1) current_input
      (("Step " ++ toString (i + 1) ++ " (" ++ name ++ "): Agent not found") :: r.1,
        r.2)

/-- `execute_chain_of_thought`: agents pass results to the next agent, in the
pool's iteration order (`self.agents.keys()`). -/
def execute_chain_of_thought (pool : List PoolEntry) (task : String) :
    List String × List Invocation :=
  cotLoop pool (pool.map PoolEntry.name) 0 task

/-- A transition of the FSM topology (`StateTransition` in `team.rs`); the
Rust fields `from` and `to` are spelled `from_` and `to_` because they
collide with Lean keywords/tokens. -/
structure StateTransition where
  from_ : String
  to_ : String
  condition : String
  deriving Repr, DecidableEq

/-- Is `pat` a prefix of the character list `l` (char-by-char comparison)? -/
def charsPrefixOf : List Char → List Char → Bool
  | [], _ => true
  | _ :: _, [] => false
  | a :: as, b :: bs => a == b && charsPrefixOf as bs

/-- Does the character list contain `pat` as a contiguous sublist? -/
def charsContains (pat : List Char) : List Char → Bool
  | [] => pat.isEmpty
  | c :: rest => charsPrefixOf pat (c :: rest) || charsContains pat rest

/-- Rust `hay.contains(pat)`: substring containment. -/
def strContains (hay pat : String) : Bool :=
  charsContains pat.toList hay.toList

/-- The transition scan loop of `determine_next_state`: walk the transitions
leaving the current state in declaration order; the three named automatic
conditions and any unrecognized condition tag fire unconditionally, the two
`customer_*` conditions fire on keyword containment in the case-folded agent
output, otherwise the scan continues. -/
def transitionScan (agent_output : String) : List StateTransition → Option String
  | [] => none
  | t :: rest =>
    if t.condition == "issue_received" || t.condition == "analysis_complete"
        || t.condition == "resolution_attempted" then
      some t.to_
    else if t.condition == "customer_satisfied" then
      if strContains agent_output.toLower "satisfied"
          || strContains agent_output.toLower "resolved"
          || strContains agent_output.toLower "happy" then
        some t.to_
      else transitionScan agent_output rest
    else if t.condition == "customer_unsatisfied" then
      if strContains agent_output.toLower "unsatisfied"
          || strContains agent_output.toLower "not resolved"
          || strContains agent_output.toLower "still has issue" then
        some t.to_
      else transitionScan agent_output rest
    else some t.to_

/-- `determine_next_state`: filter the transitions with matching `from`,
return `none` when there are none, otherwise scan them and fall back to the
first declared transition when no condition fires. -/
def determine_next_state (current_state : String)
    (transitions : List StateTransition) (agent_output : String) :
    Option String :=
  let possible := transitions.filter (fun t => t.from_ == current_state)
  if possible.isEmpty then none
  else
    match transitionScan agent_output possible with
    | some next => some next
    | none => possible.head?.map StateTransition.to_

/-- Agent matching of `execute_fsm`: the first pool entry whose name contains
the state as a substring or is contained in it. -/
def fsmAgentMatch (pool : List PoolEntry) (state : String) : Option PoolEntry :=
  pool.find? (fun e => strContains e.name state || strContains state e.name)

/-- The `while let` loop of `execute_fsm`. `fuel` is a totality artifact: the
loop body runs at most `states.length * 2 + 1` times because `iteration` is
incremented on every pass and the pass with `iteration > states.length * 2`
breaks, so `execute_fsm` below supplies exactly that much fuel and the
`fuel = 0` branch is never taken from there. -/
def fsmLoop (pool : List PoolEntry) (states : List String)
    (transitions : List StateTransition) (task : String) :
    Nat → Nat → List String → String → List String × List Invocation
  | 0, _, _, _ => ([], [])
  | fuel + 1, iteration, visited, current_state =>
    if (states.find? (fun s => s == current_state)).isSome then
      let iter := iteration + 1
      if iter > states.length * 2 then
        (["⚠️ FSM: Maximum iterations reached, stopping to prevent infinite loop"], [])
      else if visited.contains current_state then
        (["⚠️ FSM: State '" ++ current_state ++ "' already visited, stopping loop"], [])
      else
        match fsmAgentMatch pool current_state with
        | some e =>
          let state_task := "State: " ++ current_state ++ ". Task: " ++ task
          let output := e.run state_task
          let entry := "State " ++ current_state ++ " (" ++ e.name ++ "): " ++ output
          match determine_next_state current_state transitions output with
          | some next =>
            let r := fsmLoop pool states transitions task fuel iter
              (current_state :: visited) next
            (entry :: r.1,
              { agent := e.name, input := state_task, output := output } :: r.2)
          | none =>
            ([entry,
              "✅ FSM: No more transitions from state '" ++ current_state
                ++ "', workflow complete"],
              [{ agent := e.name, input := state_task, output := output }])
        | none =>
          (["❌ FSM: No agent found for state: " ++ current_state], [])
    else ([], [])

/-- `execute_fsm`: run the FSM walk from the initial state with empty visited
set and iteration counter 0. -/
def execute_fsm (pool : List PoolEntry) (states : List String)
    (transitions : List StateTransition) (initial_state task : String) :
    List String × List Invocation :=
  fsmLoop pool states transitions task (states.length * 2 + 1) 0 [] initial_state

/-- A node of the DAG topology (`DAGNode` in `team.rs`). -/
structure DAGNode where
  id : String
  agent : String
  task : String
  deriving Repr, DecidableEq, BEq

/-- An edge of the DAG topology (`DAGEdge` in `team.rs`); `from` is spelled
`from_` as above. -/
structure DAGEdge where
  from_ : String
  to_ : String
  condition : Option String
  deriving Repr, DecidableEq, BEq

/-- Lookup in the `node_results : HashMap<String, String>` map, modelled as
an association list where the most recent insertion is in front. -/
def lookupResult (node_results : List (String × String)) (key : String) :
    Option String :=
  (node_results.find? (fun p => p.1 == key)).map Prod.snd

/-- `build_dag_context`: the dependencies of a node are the `from` ends of
the edges pointing at it; with no dependency the context is
`"No dependencies"`, otherwise it joins `"<dep>: <result>"` with `" | "` for
every dependency that has a recorded result. -/
def build_dag_context (node_id : String) (edges : List DAGEdge)
    (node_results : List (String × String)) : String :=
  let dependencies := (edges.filter (fun e => e.to_ == node_id)).map DAGEdge.from_
  if dependencies.isEmpty then "No dependencies"
  else
    let context_parts := dependencies.filterMap (fun dep =>
      (lookupResult node_results dep).map (fun result => dep ++ ": " ++ result))
    String.intercalate " | " context_parts

/-- `completed_nodes.insert(node.id)` on the completed-node set, modelled as
a duplicate-free list. -/
def insertId (completed : List String) (id : String) : List String :=
  if completed.contains id then completed else id :: completed

/-- Accumulated state of the `execute_dag` loop: the `results` trace, the
`completed_nodes` id set, the `node_results` map, and the invocation log. -/
structure DagAcc where
  results : List String
  completed : List String
  node_results : List (String × String)
  log : List Invocation

/-- The edge scan at the bottom of the `execute_dag` loop: for every edge
leaving the just-processed node, look its target node up (the source calls
`.unwrap()` here, so a `to` id naming no declared node panics — modelled as
`none`), and append the target to the ready queue when all of its
dependencies are completed and it is not already enqueued. -/
def dagScanEdges (nodes : List DAGNode) (allEdges : List DAGEdge)
    (nodeId : String) (completed : List String) :
    List DAGEdge → List DAGNode → Option (List DAGNode)
  | [], ready => some ready
  | edge :: rest, ready =>
    if edge.from_ == nodeId then
      match nodes.find? (fun n => n.id == edge.to_) with
      | none => none
      | some target_node =>
        let all_deps_completed :=
          (allEdges.filter (fun e => e.to_ == target_node.id)).all
            (fun e => completed.contains e.from_)
        if all_deps_completed && !(ready.contains target_node) then
          dagScanEdges nodes allEdges nodeId completed rest (ready ++ [target_node])
        else
          dagScanEdges nodes allEdges nodeId completed rest ready
    else dagScanEdges nodes allEdges nodeId completed rest ready

/-- The `while !ready_nodes.is_empty()` loop of `execute_dag`: pop the front
node, build its context, run its agent when present (recording output and
marking completion) or record a diagnostic and mark completion anyway, then
scan the edges for newly ready nodes. `none` models the `.unwrap()` panic.
`fuel` is a totality artifact; exhausted fuel returns the state reached so
far (for graphs of the sizes considered in the theorems below the queue
empties long before the generous fuel of `execute_dag` runs out). -/
def dagLoop (pool : List PoolEntry) (nodes : List DAGNode)
    (edges : List DAGEdge) (task : String) :
    Nat → List DAGNode → DagAcc → Option DagAcc
  | 0, _, acc => some acc
  | fuel + 1, ready, acc =>
    match ready with
    | [] => some acc
    | node :: restReady =>
      let context := build_dag_context node.id edges acc.node_results
      match pool.find? (fun e => e.name == node.agent) with
      | some e =>
        let node_task :=
          "Task: " ++ node.task ++ ". Context: " ++ context ++ ". Original: " ++ task
        let output := e.run node_task
        let entry := "Node " ++ node.id ++ " (" ++ e.name ++ "): " ++ output
        let acc2 : DagAcc :=
          { results := acc.results ++ [entry]
            completed := insertId acc.completed node.id
            node_results := (node.id, output) :: acc.node_results
            log := acc.log ++ [{ agent := e.name, input := node_task, output := output }] }
        match dagScanEdges nodes edges node.id acc2.completed edges restReady with
        | none => none
        | some ready2 => dagLoop pool nodes edges task fuel ready2 acc2
      | none =>
        let acc2 : DagAcc :=
          { results := acc.results ++
              ["❌ DAG: Agent '" ++ node.agent ++ "' not found for node " ++ node.id]
            completed := insertId acc.completed node.id
            node_results := acc.node_results
            log := acc.log }
        match dagScanEdges nodes edges node.id acc2.completed edges restReady with
        | none => none
        | some ready2 => dagLoop pool nodes edges task fuel ready2 acc2

/-- Generous fuel for `dagLoop`. -/
def dagFuel (nodes : List DAGNode) (edges : List DAGEdge) : Nat :=
  (nodes.length + 1) * (edges.length + 1) + 1

/-- Debug (`{:?}`) rendering of a list of node-id strings. -/
def debugStringList (xs : List String) : String :=
  "[" ++ String.intercalate ", " (xs.map (fun s => "\"" ++ s ++ "\"")) ++ "]"

/-- `execute_dag`: start from the nodes with no incoming edge, run the loop,
and append a stranded-nodes diagnostic when fewer nodes completed than were
declared. `none` models the `.unwrap()` panic. -/
def execute_dag (pool : List PoolEntry) (nodes : List DAGNode)
    (edges : List DAGEdge) (task : String) :
    Option (List String × List Invocation) :=
  let ready := nodes.filter (fun node => !(edges.any (fun edge => edge.to_ == node.id)))
  match dagLoop pool nodes edges task (dagFuel nodes edges) ready ⟨[], [], [], []⟩ with
  | none => none
  | some acc =>
    let results :=
      if acc.completed.length < nodes.length then
        acc.results ++
          ["⚠️ DAG: Some nodes could not be completed: " ++
            debugStringList ((nodes.filter
              (fun n => !(acc.completed.contains n.id))).map DAGNode.id)]
      else acc.results
    some (results, acc.log)

/-- The topology descriptor (`TeamWorkflow` in `team.rs`). -/
inductive TeamWorkflow where
  | RoundRobin : TeamWorkflow
  | ChainOfThought : TeamWorkflow
  | Parallel : TeamWorkflow
  | FSM (states : List String) (transitions : List StateTransition)
      (initial_state : String) : TeamWorkflow
  | DAG (nodes : List DAGNode) (edges : List DAGEdge) : TeamWorkflow

/-- `results.join("\n\n")`: the human-readable result string. -/
def joinTrace (results : List String) : String :=
  String.intercalate "\n\n" results

/-- `TeamDispatcher::execute`: dispatch on the topology variant. The result
is the joined trace together with the invocation log; `none` models a panic
(only reachable through the DAG branch). -/
def execute (pool : List PoolEntry) (workflow : TeamWorkflow) (task : String) :
    Option (String × List Invocation) :=
  match workflow with
  | TeamWorkflow.RoundRobin =>
    let r := execute_round_robin pool task
    some (joinTrace r.1, r.2)
  | TeamWorkflow.ChainOfThought =>
    let r := execute_chain_of_thought pool task
    some (joinTrace r.1, r.2)
  | TeamWorkflow.Parallel =>
    let r := execute_parallel pool task
    some (joinTrace r.1, r.2)
  | TeamWorkflow.FSM states transitions initial_state =>
    let r := execute_fsm pool states transitions initial_state task
    some (joinTrace r.1, r.2)
  | TeamWorkflow.DAG nodes edges =>
    match execute_dag pool nodes edges task with
    | none => none
    | some r => some (joinTrace r.1, r.2)

/-! ## Characterization of the round-robin and parallel executors -/

theorem execute_round_robin_trace (pool : List PoolEntry) (task : String) :
    (execute_round_robin pool task).1 =
      pool.map (fun e => nameEntry e.name (e.run task)) := by
  induction pool with
  | nil => rfl
  | cons e rest ih => simp [execute_round_robin, ih]

theorem execute_round_robin_log (pool : List PoolEntry) (task : String) :
    (execute_round_robin pool task).2 =
      pool.map (fun e =>
        { agent := e.name, input := task, output := e.run task : Invocation }) := by
  induction pool with
  | nil => rfl
  | cons e rest ih => simp [execute_round_robin, ih]

theorem execute_parallel_trace (pool : List PoolEntry) (task : String) :
    (execute_parallel pool task).1 =
      pool.map (fun e => nameEntry e.name (e.run task)) := by
  induction pool with
  | nil => rfl
  | cons e rest ih => simp [execute_parallel, ih]

theorem execute_parallel_log (pool : List PoolEntry) (task : String) :
    (execute_parallel pool task).2 =
      pool.map (fun e =>
        { agent := e.name, input := task, output := e.run task : Invocation }) := by
  induction pool with
  | nil => rfl
  | cons e rest ih => simp [execute_parallel, ih]

/-- C8: for every pool of size N and every task, a RoundRobin execution and a
Parallel execution each perform exactly N agent invocations, one per pool
agent (the logged agent names are exactly the pool's names, in order), and
every invocation receives the unmodified task text as its input. -/
theorem claim_C8 (pool : List PoolEntry) (task : String) :
    (execute_round_robin pool task).2.length = pool.length ∧
    (execute_round_robin pool task).2.map Invocation.agent = pool.map PoolEntry.name ∧
    (∀ inv ∈ (execute_round_robin pool task).2, inv.input = task) ∧
    (execute_parallel pool task).2.length = pool.length ∧
    (execute_parallel pool task).2.map Invocation.agent = pool.map PoolEntry.name ∧
    (∀ inv ∈ (execute_parallel pool task).2, inv.input = task) := by
  refine ⟨?_, ?_, ?_, ?_, ?_, ?_⟩ <;>
    simp [execute_round_robin_log, execute_parallel_log]

/-- A two-agent pool in declaration order (this order is also ascending by
agent name). -/
def rrDeclaredPool : List PoolEntry :=
  [⟨"a", fun _ => "x"⟩, ⟨"b", fun _ => "y"⟩]

/-- The same two agents in the other iteration order. Rust's
`HashMap<String, Agent>` leaves its iteration order unspecified, so a
dispatcher built from `rrDeclaredPool` may expose its entries to the
executors in this order. -/
def rrOtherOrderPool : List PoolEntry :=
  [⟨"b", fun _ => "y"⟩, ⟨"a", fun _ => "x"⟩]

/-- C3 counterexample: the round-robin trace over a legitimate iteration
order of the pool (a permutation of the declared agents) is neither in
declared order nor in agent-name order: for the declared agents `a`, `b`
(declared order = name order), the iteration order `[b, a]` produces the
trace `["b: y", "a: x"]`, which differs from the unique trace any stable
name-or-declaration order policy would produce. -/
theorem claim_C3_counterexample :
    List.Perm rrOtherOrderPool rrDeclaredPool ∧
    (execute_round_robin rrOtherOrderPool "t").1 = ["b: y", "a: x"] ∧
    (execute_round_robin rrDeclaredPool "t").1 = ["a: x", "b: y"] ∧
    (["b: y", "a: x"] : List String) ≠ ["a: x", "b: y"] :=
  ⟨List.Perm.swap _ _ _, rfl, rfl, by decide⟩

/-- C3 (amended): with identical topology, pool (same dispatcher instance,
hence same map iteration order) and task, `execute` is a pure function, so
two runs yield the identical trace; the step count equals the pool size; but
the RoundRobin entry order is exactly the pool map's iteration order, which
is not guaranteed to follow agent name or declaration order. -/
theorem claim_C3_amended (pool : List PoolEntry) (task : String) :
    (execute_round_robin pool task).1 =
      pool.map (fun e => nameEntry e.name (e.run task)) ∧
    (execute_round_robin pool task).1.length = pool.length ∧
    execute pool TeamWorkflow.RoundRobin task =
      some (joinTrace (execute_round_robin pool task).1,
        (execute_round_robin pool task).2) :=
  ⟨execute_round_robin_trace pool task,
    by simp [execute_round_robin_trace], rfl⟩

/-- C1 counterexample: for the one-agent pool `a` (deterministic output
`"X"`) and task `"t"`, the chain's last (and only) invocation outputs `"X"`,
but `execute` returns the joined per-step trace `"Step 1 (a): X"`, which is
not the last agent's output. -/
theorem claim_C1_counterexample :
    (execute_chain_of_thought [⟨"a", fun _ => "X"⟩] "t").2.getLast? =
      some { agent := "a", input := "t", output := "X" } ∧
    execute [⟨"a", fun _ => "X"⟩] TeamWorkflow.ChainOfThought "t" =
      some ("Step 1 (a): X", [{ agent := "a", input := "t", output := "X" }]) ∧
    ("Step 1 (a): X" : String) ≠ "X" :=
  ⟨rfl, rfl, by decide⟩

/-! ## Chain-of-thought: the key lookup always hits, so the loop is a fold -/

/-- The chain-of-thought loop with the (always successful) key lookup
resolved: fold directly over the pool entries. -/
def directChain : List PoolEntry → Nat → String → List String × List Invocation
  | [], _, _ => ([], [])
  | e :: rest, i, current_input =>
    let output := e.run current_input
    let r := directChain rest (i + 1) output
    (("Step " ++ toString (i + 1) ++ " (" ++ e.name ++ "): " ++ output) :: r.1,
      { agent := e.name, input := current_input, output := output } :: r.2)

theorem lookupAgent_self (pool : List PoolEntry)
    (h : (pool.map PoolEntry.name).Nodup) :
    ∀ e ∈ pool, lookupAgent pool e.name = some e := by
  induction pool with
  | nil => intro e he; cases he
  | cons a rest ih =>
    simp only [List.map_cons, List.nodup_cons] at h
    intro e he
    rcases List.mem_cons.mp he with rfl | hmem
    · simp [lookupAgent, List.find?]
    · have hne : (a.name == e.name) = false := by
        rcases Bool.eq_false_or_eq_true (a.name == e.name) with ht | hf
        · exact absurd (by rw [beq_iff_eq.mp ht]; exact List.mem_map_of_mem _ hmem) h.1
        · exact hf
      have := ih h.2 e hmem
      simpa [lookupAgent, List.find?, hne] using this

theorem cotLoop_eq_directChain (pool : List PoolEntry) :
    ∀ (l : List PoolEntry), (∀ e ∈ l, lookupAgent pool e.name = some e) →
      ∀ i input, cotLoop pool (l.map PoolEntry.name) i input = directChain l i input := by
  intro l
  induction l with
  | nil => intro _ i input; rfl
  | cons e rest ih =>
    intro h i input
    have he := h e (List.mem_cons_self e rest)
    have hrest := fun x hx => h x (List.mem_cons_of_mem e hx)
    simp [cotLoop, directChain, he, ih hrest]

theorem execute_chain_eq_directChain (pool : List PoolEntry) (task : String)
    (h : (pool.map PoolEntry.name).Nodup) :
    execute_chain_of_thought pool task = directChain pool 0 task :=
  cotLoop_eq_directChain pool pool (lookupAgent_self pool h) 0 task

theorem directChain_log_length :
    ∀ (l : List PoolEntry) i input, (directChain l i input).2.length = l.length := by
  intro l
  induction l with
  | nil => intro i input; rfl
  | cons e rest ih => intro i input; simp [directChain, ih]

theorem directChain_log_get_zero :
    ∀ (l : List PoolEntry) i input (h : 0 < (directChain l i input).2.length),
      ((directChain l i input).2.get ⟨0, h⟩).input = input := by
  intro l
  cases l with
  | nil => intro i input h; simp [directChain] at h
  | cons e rest => intro i input h; rfl

theorem directChain_log_adjacent :
    ∀ (l : List PoolEntry) i input j
      (hj1 : j + 1 < (directChain l i input).2.length)
      (hj0 : j < (directChain l i input).2.length),
      ((directChain l i input).2.get ⟨j + 1, hj1⟩).input =
        ((directChain l i input).2.get ⟨j, hj0⟩).output := by
  intro l
  induction l with
  | nil => intro i input j hj1 hj0; simp [directChain] at hj1
  | cons e rest ih =>
    intro i input j hj1 hj0
    cases j with
    | zero =>
      have hlen : 0 < (directChain rest (i + 1) (e.run input)).2.length := by
        simp only [directChain, List.length_cons] at hj1
        omega
      have h0 := directChain_log_get_zero rest (i + 1) (e.run input) hlen
      simpa [directChain] using h0
    | succ k =>
      have hk1 : k + 1 < (directChain rest (i + 1) (e.run input)).2.length := by
        simp only [directChain, List.length_cons] at hj1
        omega
      have hk0 : k < (directChain rest (i + 1) (e.run input)).2.length := by
        omega
      have := ih (i + 1) (e.run input) k hk1 hk0
      simpa [directChain] using this

/-- C9: for every ChainOfThought execution (pool names unique, as they are
keys of a HashMap), the number of invocations equals the pool size, the
first agent receives the task string, and the input recorded for each later
invocation equals the output recorded for the previous one. -/
theorem claim_C9 (pool : List PoolEntry) (task : String)
    (h : (pool.map PoolEntry.name).Nodup) :
    (execute_chain_of_thought pool task).2.length = pool.length ∧
    (∀ h0 : 0 < (execute_chain_of_thought pool task).2.length,
      ((execute_chain_of_thought pool task).2.get ⟨0, h0⟩).input = task) ∧
    ∀ j (hj1 : j + 1 < (execute_chain_of_thought pool task).2.length)
      (hj0 : j < (execute_chain_of_thought pool task).2.length),
      ((execute_chain_of_thought pool task).2.get ⟨j + 1, hj1⟩).input =
        ((execute_chain_of_thought pool task).2.get ⟨j, hj0⟩).output := by
  rw [execute_chain_eq_directChain pool task h]
  exact ⟨directChain_log_length pool 0 task,
    fun h0 => directChain_log_get_zero pool 0 task h0,
    fun j hj1 hj0 => directChain_log_adjacent pool 0 task j hj1 hj0⟩

/-- Concrete two-agent pool used to witness the chain-of-thought claims. -/
def cotWitnessPool : List PoolEntry :=
  [⟨"a", fun s => "u(" ++ s ++ ")"⟩, ⟨"b", fun s => "v(" ++ s ++ ")"⟩]

/-- Witness for C9 at a concrete two-agent pool. -/
theorem claim_C9_witness :
    (execute_chain_of_thought cotWitnessPool "t").2.length = cotWitnessPool.length ∧
    (∀ h0 : 0 < (execute_chain_of_thought cotWitnessPool "t").2.length,
      ((execute_chain_of_thought cotWitnessPool "t").2.get ⟨0, h0⟩).input = "t") ∧
    ∀ j (hj1 : j + 1 < (execute_chain_of_thought cotWitnessPool "t").2.length)
      (hj0 : j < (execute_chain_of_thought cotWitnessPool "t").2.length),
      ((execute_chain_of_thought cotWitnessPool "t").2.get ⟨j + 1, hj1⟩).input =
        ((execute_chain_of_thought cotWitnessPool "t").2.get ⟨j, hj0⟩).output :=
  claim_C9 cotWitnessPool "t" (by decide)

theorem directChain_last :
    ∀ (l : List PoolEntry) i input, l ≠ [] →
      ∃ inv : Invocation,
        (directChain l i input).2.getLast? = some inv ∧
        (directChain l i input).1.getLast? =
          some ("Step " ++ toString (i + l.length) ++ " (" ++ inv.agent ++ "): "
            ++ inv.output) := by
  intro l
  induction l with
  | nil => intro i input h; exact absurd rfl h
  | cons e rest ih =>
    intro i input _
    cases rest with
    | nil =>
      refine ⟨{ agent := e.name, input := input, output := e.run input }, rfl, ?_⟩
      simp [directChain]
    | cons e' rest' =>
      obtain ⟨inv, hlog, htr⟩ :=
        ih (i + 1) (e.run input) (by simp)
      refine ⟨inv, ?_, ?_⟩
      · simp only [directChain]
        rw [List.getLast?_cons_cons]
        simpa [directChain] using hlog
      · have hnum : i + 1 + (e' :: rest').length = i + (e :: e' :: rest').length := by
          simp only [List.length_cons]
          omega
        simp only [directChain]
        rw [List.getLast?_cons_cons]
        rw [← hnum]
        simpa [directChain] using htr

/-- C1 (amended): for every ChainOfThought execution over a pool of size
N ≥ 1 with deterministic agents (pool names unique), the final result
returned by `execute` is the blank-line join of the per-step trace, whose
last entry is `"Step N (<name>): <output>"` for the last agent invoked — the
last agent's output is embedded in the final entry, but the returned result
is the joined trace, not the bare output. -/
theorem claim_C1_amended (pool : List PoolEntry) (task : String)
    (hne : pool ≠ []) (h : (pool.map PoolEntry.name).Nodup) :
    ∃ inv : Invocation,
      (execute_chain_of_thought pool task).2.getLast? = some inv ∧
      (execute_chain_of_thought pool task).1.getLast? =
        some ("Step " ++ toString pool.length ++ " (" ++ inv.agent ++ "): "
          ++ inv.output) ∧
      execute pool TeamWorkflow.ChainOfThought task =
        some (joinTrace (execute_chain_of_thought pool task).1,
          (execute_chain_of_thought pool task).2) := by
  rw [execute_chain_eq_directChain pool task h]
  obtain ⟨inv, hlog, htr⟩ := directChain_last pool 0 task hne
  refine ⟨inv, hlog, ?_, ?_⟩
  · simpa using htr
  · simp [execute, joinTrace, execute_chain_eq_directChain pool task h]

/-- Witness for the amended C1 at a concrete two-agent pool. -/
theorem claim_C1_amended_witness :
    ∃ inv : Invocation,
      (execute_chain_of_thought cotWitnessPool "t").2.getLast? = some inv ∧
      (execute_chain_of_thought cotWitnessPool "t").1.getLast? =
        some ("Step " ++ toString cotWitnessPool.length ++ " (" ++ inv.agent ++ "): "
          ++ inv.output) ∧
      execute cotWitnessPool TeamWorkflow.ChainOfThought "t" =
        some (joinTrace (execute_chain_of_thought cotWitnessPool "t").1,
          (execute_chain_of_thought cotWitnessPool "t").2) :=
  claim_C1_amended cotWitnessPool "t" (by simp [cotWitnessPool]) (by decide)

/-! ## FSM theorems -/

theorem fsmLoop_not_declared (pool : List PoolEntry) (states : List String)
    (ts : List StateTransition) (task : String) :
    ∀ fuel iteration visited current,
      states.find? (fun s => s == current) = none →
      fsmLoop pool states ts task fuel iteration visited current = ([], []) := by
  intro fuel iteration visited current h
  cases fuel with
  | zero => rfl
  | succ f => simp [fsmLoop, h]

/-- C10: whenever the current FSM state is not a member of the declared state
list the `while let` loop ends at once, with no diagnostic and no "workflow
complete" entry: (i) the loop returns the empty trace from any undeclared
state; (ii) when `initial_state` is undeclared, `execute` returns
successfully with the empty string and no invocations; (iii) when a taken
transition targets an undeclared state, the run returns with exactly the
trace accumulated so far (here: the single entry of state "A", whose
transition targets the undeclared "B"). -/
theorem claim_C10 :
    (∀ (pool : List PoolEntry) (states : List String) (ts : List StateTransition)
        (task : String) fuel iteration visited current,
      states.find? (fun s => s == current) = none →
      fsmLoop pool states ts task fuel iteration visited current = ([], [])) ∧
    (∀ (pool : List PoolEntry) (states : List String) (ts : List StateTransition)
        (initial task : String),
      states.find? (fun s => s == initial) = none →
      execute pool (TeamWorkflow.FSM states ts initial) task = some ("", [])) ∧
    (∀ (f : String → String) (task : String),
      execute_fsm [⟨"A", f⟩] ["A"] [⟨"A", "B", "issue_received"⟩] "A" task =
        (["State A (A): " ++ f ("State: A. Task: " ++ task)],
          [{ agent := "A", input := "State: A. Task: " ++ task,
             output := f ("State: A. Task: " ++ task) }])) := by
  refine ⟨fun pool states ts task => fsmLoop_not_declared pool states ts task,
    ?_, ?_⟩
  · intro pool states ts initial task h
    simp only [execute, execute_fsm,
      fsmLoop_not_declared pool states ts task _ 0 [] initial h, joinTrace]
    rfl
  · intro f task
    rfl

/-- Witness for C10 with its hypotheses discharged at concrete inputs. -/
theorem claim_C10_witness :
    fsmLoop [] ["A"] [] "t" 5 0 [] "Z" = ([], []) ∧
    execute [] (TeamWorkflow.FSM ["A"] [] "Z") "t" = some ("", []) ∧
    execute_fsm [⟨"A", fun _ => "o"⟩] ["A"] [⟨"A", "B", "issue_received"⟩] "A" "t" =
      (["State A (A): " ++ "o"],
        [{ agent := "A", input := "State: A. Task: " ++ "t", output := "o" }]) :=
  ⟨claim_C10.1 [] ["A"] [] "t" 5 0 [] "Z" (by rfl),
    claim_C10.2.1 [] ["A"] [] "Z" "t" (by rfl),
    claim_C10.2.2 (fun _ => "o") "t"⟩

theorem fsmLoop_log_bound (pool : List PoolEntry) (states : List String)
    (ts : List StateTransition) (task : String) :
    ∀ fuel iteration visited current,
      (fsmLoop pool states ts task fuel iteration visited current).2.length ≤
        states.length * 2 - iteration := by
  intro fuel
  induction fuel with
  | zero => intro it vis cur; simp [fsmLoop]
  | succ f ih =>
    intro it vis cur
    by_cases hc : (states.find? (fun s => s == cur)).isSome
    · by_cases hiter : it + 1 > states.length * 2
      · simp [fsmLoop, hc, hiter]
      · by_cases hvis : cur ∈ vis
        · simp [fsmLoop, hc, hiter, hvis]
        · rcases hm : fsmAgentMatch pool cur with _ | e
          · simp [fsmLoop, hc, hiter, hvis, hm]
          · rcases hd : determine_next_state cur ts
                (e.run ("State: " ++ cur ++ ". Task: " ++ task)) with _ | next
            · simp [fsmLoop, hc, hiter, hvis, hm, hd]
              omega
            · have hrec := ih (it + 1) (cur :: vis) next
              simp [fsmLoop, hc, hiter, hvis, hm, hd]
              omega
    · simp [fsmLoop, hc]

theorem fsmLoop_fuel_stable (pool : List PoolEntry) (states : List String)
    (ts : List StateTransition) (task : String) :
    ∀ (k fa fb it : Nat) (vis : List String) (cur : String),
      it + k = states.length * 2 → k < fa → k < fb →
      fsmLoop pool states ts task fa it vis cur =
        fsmLoop pool states ts task fb it vis cur := by
  intro k
  induction k with
  | zero =>
    intro fa fb it vis cur hit hfa hfb
    obtain ⟨fa', rfl⟩ : ∃ fa', fa = fa' + 1 := ⟨fa - 1, by omega⟩
    obtain ⟨fb', rfl⟩ : ∃ fb', fb = fb' + 1 := ⟨fb - 1, by omega⟩
    by_cases hc : (states.find? (fun s => s == cur)).isSome
    · have hiter : it + 1 > states.length * 2 := by omega
      simp [fsmLoop, hc, hiter]
    · simp [fsmLoop, hc]
  | succ k ihk =>
    intro fa fb it vis cur hit hfa hfb
    obtain ⟨fa', rfl⟩ : ∃ fa', fa = fa' + 1 := ⟨fa - 1, by omega⟩
    obtain ⟨fb', rfl⟩ : ∃ fb', fb = fb' + 1 := ⟨fb - 1, by omega⟩
    by_cases hc : (states.find? (fun s => s == cur)).isSome
    · by_cases hiter : it + 1 > states.length * 2
      · simp [fsmLoop, hc, hiter]
      · by_cases hvis : cur ∈ vis
        · simp [fsmLoop, hc, hiter, hvis]
        · rcases hm : fsmAgentMatch pool cur with _ | e
          · simp [fsmLoop, hc, hiter, hvis, hm]
          · rcases hd : determine_next_state cur ts
                (e.run ("State: " ++ cur ++ ". Task: " ++ task)) with _ | next
            · simp [fsmLoop, hc, hiter, hvis, hm, hd]
            · have hrec := ihk fa' fb' (it + 1) (cur :: vis) next
                (by omega) (by omega) (by omega)
              simp [fsmLoop, hc, hiter, hvis, hm, hd, hrec]
    · simp [fsmLoop, hc]

/-- C4: the FSM walk terminates. (i) The walk is fuel-insensitive: any fuel
beyond the hard cap `2 × number-of-declared-states` (plus the final
cap-checking pass) produces the very walk `execute_fsm` produces, i.e. the
loop never needs more than the capped number of passes regardless of the
transition table; (ii) the number of agent invocations of any walk is at
most `2 × number-of-declared-states`; (iii) a state already visited in the
run halts the walk with an "already visited" diagnostic before the state is
re-executed; (iv) concretely, a transition from "A" back to "A" halts after
one revisit: agent "A" runs exactly once and the walk stops with the
diagnostic. -/
theorem claim_C4 :
    (∀ (pool : List PoolEntry) (states : List String) (ts : List StateTransition)
        (initial task : String) (fuel : Nat), states.length * 2 < fuel →
      fsmLoop pool states ts task fuel 0 [] initial =
        execute_fsm pool states ts initial task) ∧
    (∀ (pool : List PoolEntry) (states : List String) (ts : List StateTransition)
        (task : String) fuel iteration visited current,
      (fsmLoop pool states ts task fuel iteration visited current).2.length ≤
        states.length * 2 - iteration) ∧
    (∀ (pool : List PoolEntry) (states : List String) (ts : List StateTransition)
        (task : String) fuel iteration visited current,
      (states.find? (fun s => s == current)).isSome →
      ¬(iteration + 1 > states.length * 2) →
      visited.contains current = true →
      fsmLoop pool states ts task (fuel + 1) iteration visited current =
        (["⚠️ FSM: State '" ++ current ++ "' already visited, stopping loop"], [])) ∧
    (∀ (f : String → String) (task : String),
      execute_fsm [⟨"A", f⟩] ["A"] [⟨"A", "A", "issue_received"⟩] "A" task =
        (["State A (A): " ++ f ("State: A. Task: " ++ task),
          "⚠️ FSM: State 'A' already visited, stopping loop"],
          [{ agent := "A", input := "State: A. Task: " ++ task,
             output := f ("State: A. Task: " ++ task) }])) := by
  refine ⟨?_, ?_, ?_, ?_⟩
  · intro pool states ts initial task fuel hfuel
    exact fsmLoop_fuel_stable pool states ts task (states.length * 2) fuel
      (states.length * 2 + 1) 0 [] initial (by omega) hfuel (by omega)
  · intro pool states ts task fuel iteration visited current
    exact fsmLoop_log_bound pool states ts task fuel iteration visited current
  · intro pool states ts task fuel iteration visited current hc hiter hvis
    have hmem : current ∈ visited := by simpa using hvis
    simp [fsmLoop, hc, hiter, hmem]
  · intro f task
    rfl

/-- Witness for C4 with its hypotheses discharged at concrete inputs. -/
theorem claim_C4_witness :
    fsmLoop [] ["A"] [] "t" 9 0 [] "A" = execute_fsm [] ["A"] [] "A" "t" ∧
    fsmLoop [] ["A"] [] "t" 3 0 ["A"] "A" =
      (["⚠️ FSM: State 'A' already visited, stopping loop"], []) :=
  ⟨claim_C4.1 [] ["A"] [] "A" "t" 9 (by decide),
    claim_C4.2.2.1 [] ["A"] [] "t" 2 0 ["A"] "A" (by rfl) (by decide) (by rfl)⟩

/-- Specification-side firing predicate for one transition: the three named
automatic conditions and every unrecognized tag fire unconditionally;
`customer_satisfied` fires exactly when the case-folded output contains
"satisfied", "resolved" or "happy"; `customer_unsatisfied` exactly when it
contains "unsatisfied", "not resolved" or "still has issue". -/
def transitionFires (t : StateTransition) (agent_output : String) : Bool :=
  if t.condition == "issue_received" || t.condition == "analysis_complete"
      || t.condition == "resolution_attempted" then
    true
  else if t.condition == "customer_satisfied" then
    strContains agent_output.toLower "satisfied"
      || strContains agent_output.toLower "resolved"
      || strContains agent_output.toLower "happy"
  else if t.condition == "customer_unsatisfied" then
    strContains agent_output.toLower "unsatisfied"
      || strContains agent_output.toLower "not resolved"
      || strContains agent_output.toLower "still has issue"
  else true

theorem transitionScan_eq_find (agent_output : String) :
    ∀ l : List StateTransition,
      transitionScan agent_output l =
        (l.find? (fun t => transitionFires t agent_output)).map StateTransition.to_ := by
  intro l
  induction l with
  | nil => rfl
  | cons t rest ih =>
    by_cases h1 : (t.condition == "issue_received"
        || t.condition == "analysis_complete"
        || t.condition == "resolution_attempted") = true
    · simp [transitionScan, transitionFires, List.find?, h1]
    · by_cases h2 : (t.condition == "customer_satisfied") = true
      · by_cases h3 : (strContains agent_output.toLower "satisfied"
            || strContains agent_output.toLower "resolved"
            || strContains agent_output.toLower "happy") = true
        · simp [transitionScan, transitionFires, List.find?, h1, h2, h3]
        · simp [transitionScan, transitionFires, List.find?, h1, h2, h3, ih]
      · by_cases h4 : (t.condition == "customer_unsatisfied") = true
        · by_cases h5 : (strContains agent_output.toLower "unsatisfied"
              || strContains agent_output.toLower "not resolved"
              || strContains agent_output.toLower "still has issue") = true
          · simp [transitionScan, transitionFires, List.find?, h1, h2, h4, h5]
          · simp [transitionScan, transitionFires, List.find?, h1, h2, h4, h5, ih]
        · simp [transitionScan, transitionFires, List.find?, h1, h2, h4]

/-- C6: next-state resolution. (i) `determine_next_state` scans the
transitions with matching `from` in declaration order and returns the target
of the first transition whose condition fires (per `transitionFires`: the
three automatic tags and any unrecognized tag fire unconditionally, and the
two `customer_*` tags fire by keyword containment); if none fires, the first
declared transition is the fallback; with zero matching transitions the
result is `none`. (ii)/(iii) `customer_satisfied` / `customer_unsatisfied`
fire exactly on their keyword sets; (iv) every other tag fires
unconditionally. (v) In the walk, a state with an agent and zero outgoing
transitions terminates the run with a "workflow complete" entry. -/
theorem claim_C6 :
    (∀ (cur : String) (ts : List StateTransition) (out : String),
      determine_next_state cur ts out =
        (match (ts.filter (fun t => t.from_ == cur)).find?
            (fun t => transitionFires t out) with
         | some t => some t.to_
         | none =>
           ((ts.filter (fun t => t.from_ == cur)).head?).map StateTransition.to_)) ∧
    (∀ (t : StateTransition) (out : String), t.condition = "customer_satisfied" →
      (transitionFires t out = true ↔
        (strContains out.toLower "satisfied" || strContains out.toLower "resolved"
          || strContains out.toLower "happy") = true)) ∧
    (∀ (t : StateTransition) (out : String), t.condition = "customer_unsatisfied" →
      (transitionFires t out = true ↔
        (strContains out.toLower "unsatisfied" || strContains out.toLower "not resolved"
          || strContains out.toLower "still has issue") = true)) ∧
    (∀ (t : StateTransition) (out : String),
      t.condition ≠ "customer_satisfied" → t.condition ≠ "customer_unsatisfied" →
      transitionFires t out = true) ∧
    (∀ (pool : List PoolEntry) (states : List String) (ts : List StateTransition)
        (task : String) fuel iteration visited current e,
      (states.find? (fun s => s == current)).isSome →
      ¬(iteration + 1 > states.length * 2) →
      current ∉ visited →
      fsmAgentMatch pool current = some e →
      ts.filter (fun t => t.from_ == current) = [] →
      fsmLoop pool states ts task (fuel + 1) iteration visited current =
        (["State " ++ current ++ " (" ++ e.name ++ "): "
            ++ e.run ("State: " ++ current ++ ". Task: " ++ task),
          "✅ FSM: No more transitions from state '" ++ current
            ++ "', workflow complete"],
          [{ agent := e.name, input := "State: " ++ current ++ ". Task: " ++ task,
             output := e.run ("State: " ++ current ++ ". Task: " ++ task) }])) := by
  refine ⟨?_, ?_, ?_, ?_, ?_⟩
  · intro cur ts out
    rw [determine_next_state]
    by_cases hemp : (ts.filter (fun t => t.from_ == cur)).isEmpty
    · have : ts.filter (fun t => t.from_ == cur) = [] := by
        simpa [List.isEmpty_iff] using hemp
      simp [hemp, this]
    · rw [if_neg hemp, transitionScan_eq_find]
      rcases hfind : (ts.filter (fun t => t.from_ == cur)).find?
          (fun t => transitionFires t out) with _ | t <;>
        simp [hfind]
  · intro t out h
    simp [transitionFires, h]
  · intro t out h
    simp [transitionFires, h]
  · intro t out h2 h4
    rw [transitionFires]
    by_cases h1 : (t.condition == "issue_received"
        || t.condition == "analysis_complete"
        || t.condition == "resolution_attempted") = true
    · simp [h1]
    · simp [h1, h2, h4]
  · intro pool states ts task fuel iteration visited current e hc hiter hvis hm hfilter
    have hd : determine_next_state current ts
        (e.run ("State: " ++ current ++ ". Task: " ++ task)) = none := by
      simp [determine_next_state, hfilter]
    simp [fsmLoop, hc, hiter, hvis, hm, hd]

/-- Witness for C6 with its hypotheses discharged at concrete inputs. -/
theorem claim_C6_witness :
    (transitionFires ⟨"A", "B", "customer_satisfied"⟩ "all resolved" = true ↔
      (strContains ("all resolved").toLower "satisfied"
        || strContains ("all resolved").toLower "resolved"
        || strContains ("all resolved").toLower "happy") = true) ∧
    (transitionFires ⟨"A", "B", "customer_unsatisfied"⟩ "ok" = true ↔
      (strContains ("ok").toLower "unsatisfied"
        || strContains ("ok").toLower "not resolved"
        || strContains ("ok").toLower "still has issue") = true) ∧
    transitionFires ⟨"A", "B", "some_other_tag"⟩ "ok" = true ∧
    fsmLoop [⟨"A", fun _ => "o"⟩] ["A"] [] "t" 4 0 [] "A" =
      (["State " ++ "A" ++ " (" ++ "A" ++ "): " ++ "o",
        "✅ FSM: No more transitions from state '" ++ "A" ++ "', workflow complete"],
        [{ agent := "A", input := "State: " ++ "A" ++ ". Task: " ++ "t",
           output := "o" }]) :=
  ⟨claim_C6.2.1 ⟨"A", "B", "customer_satisfied"⟩ "all resolved" rfl,
    claim_C6.2.2.1 ⟨"A", "B", "customer_unsatisfied"⟩ "ok" rfl,
    claim_C6.2.2.2.1 ⟨"A", "B", "some_other_tag"⟩ "ok" (by decide) (by decide),
    claim_C6.2.2.2.2 [⟨"A", fun _ => "o"⟩] ["A"] [] "t" 3 0 [] "A" ⟨"A", fun _ => "o"⟩
      (by rfl) (by decide) (by decide) (by rfl) (by rfl)⟩

/-! ## DAG theorems -/

theorem filterMap_lookup_all_some (node_results : List (String × String)) :
    ∀ l : List String, (∀ d ∈ l, (lookupResult node_results d).isSome) →
      l.filterMap (fun dep =>
          (lookupResult node_results dep).map (fun result => dep ++ ": " ++ result)) =
        l.map (fun d => d ++ ": " ++ (lookupResult node_results d).getD "") := by
  intro l
  induction l with
  | nil => intro _; rfl
  | cons d rest ih =>
    intro h
    obtain ⟨r, hr⟩ := Option.isSome_iff_exists.mp (h d (List.mem_cons_self d rest))
    have := ih (fun x hx => h x (List.mem_cons_of_mem d hx))
    simp [List.filterMap_cons, hr, this]

/-- C5: DAG dependency order and context propagation. (i) For the two-node
DAG `n1 → n2` with both agents in the pool, `n1` is invoked and completed
strictly before `n2` (the invocation log is exactly `[n1's run, n2's run]`)
and `n2`'s input embeds the context `"n1: <n1's output>"`. (ii) A node with
no incoming edge gets context `"No dependencies"`. (iii) In general, when
every dependency has a recorded result, the context is the `" | "`-join of
`"<depId>: <depOutput>"` over the node's incoming edges. -/
theorem claim_C5 :
    (∀ (f g : String → String) (t1 t2 task : String),
      execute_dag [⟨"a", f⟩, ⟨"b", g⟩] [⟨"n1", "a", t1⟩, ⟨"n2", "b", t2⟩]
          [⟨"n1", "n2", none⟩] task =
        some (["Node n1 (a): " ++
                f ("Task: " ++ t1 ++ ". Context: " ++ "No dependencies"
                  ++ ". Original: " ++ task),
              "Node n2 (b): " ++
                g ("Task: " ++ t2 ++ ". Context: "
                  ++ ("n1: " ++ f ("Task: " ++ t1 ++ ". Context: " ++ "No dependencies"
                    ++ ". Original: " ++ task)) ++ ". Original: " ++ task)],
          [{ agent := "a",
             input := "Task: " ++ t1 ++ ". Context: " ++ "No dependencies"
               ++ ". Original: " ++ task,
             output := f ("Task: " ++ t1 ++ ". Context: " ++ "No dependencies"
               ++ ". Original: " ++ task) },
           { agent := "b",
             input := "Task: " ++ t2 ++ ". Context: "
               ++ ("n1: " ++ f ("Task: " ++ t1 ++ ". Context: " ++ "No dependencies"
                 ++ ". Original: " ++ task)) ++ ". Original: " ++ task,
             output := g ("Task: " ++ t2 ++ ". Context: "
               ++ ("n1: " ++ f ("Task: " ++ t1 ++ ". Context: " ++ "No dependencies"
                 ++ ". Original: " ++ task)) ++ ". Original: " ++ task) }])) ∧
    (∀ (node_id : String) (edges : List DAGEdge)
        (node_results : List (String × String)),
      edges.filter (fun e => e.to_ == node_id) = [] →
      build_dag_context node_id edges node_results = "No dependencies") ∧
    (∀ (node_id : String) (edges : List DAGEdge)
        (node_results : List (String × String)),
      (edges.filter (fun e => e.to_ == node_id)).map DAGEdge.from_ ≠ [] →
      (∀ d ∈ (edges.filter (fun e => e.to_ == node_id)).map DAGEdge.from_,
        (lookupResult node_results d).isSome) →
      build_dag_context node_id edges node_results =
        String.intercalate " | "
          (((edges.filter (fun e => e.to_ == node_id)).map DAGEdge.from_).map
            (fun d => d ++ ": " ++ (lookupResult node_results d).getD ""))) := by
  refine ⟨?_, ?_, ?_⟩
  · intro f g t1 t2 task
    rfl
  · intro node_id edges node_results h
    simp [build_dag_context, h]
  · intro node_id edges node_results hne hall
    rw [build_dag_context]
    simp only [List.isEmpty_iff]
    rw [if_neg hne]
    rw [filterMap_lookup_all_some node_results _ hall]

/-- Witness for C5 with its hypotheses discharged at concrete inputs. -/
theorem claim_C5_witness :
    execute_dag [⟨"a", fun _ => "O1"⟩, ⟨"b", fun _ => "O2"⟩]
        [⟨"n1", "a", "t1"⟩, ⟨"n2", "b", "t2"⟩] [⟨"n1", "n2", none⟩] "TK" =
      some (["Node n1 (a): " ++ "O1", "Node n2 (b): " ++ "O2"],
        [{ agent := "a",
           input := "Task: " ++ "t1" ++ ". Context: " ++ "No dependencies"
             ++ ". Original: " ++ "TK",
           output := "O1" },
         { agent := "b",
           input := "Task: " ++ "t2" ++ ". Context: " ++ ("n1: " ++ "O1")
             ++ ". Original: " ++ "TK",
           output := "O2" }]) ∧
    build_dag_context "n1" [⟨"n1", "n2", none⟩] [] = "No dependencies" ∧
    build_dag_context "n2" [⟨"n1", "n2", none⟩] [("n1", "O1")] =
      String.intercalate " | " ["n1" ++ ": " ++ "O1"] :=
  ⟨claim_C5.1 (fun _ => "O1") (fun _ => "O2") "t1" "t2" "TK",
    claim_C5.2.1 "n1" [⟨"n1", "n2", none⟩] [] (by decide),
    by
      have := claim_C5.2.2 "n2" [⟨"n1", "n2", none⟩] [("n1", "O1")]
        (by decide) (by decide)
      simpa using this⟩

/-- C7: a DAG node whose declared agent is absent from the pool is a
non-fatal per-node failure. (i) In general, such a pass of the loop records
the diagnostic entry, marks the node completed anyway (`insertId` into the
completed set), leaves the recorded results and the invocation log
unchanged, and continues with the usual readiness re-scan — it neither
halts nor skips the completion marking. (ii) Concretely, in the two-node DAG
`n1 → n2` where `n1`'s agent "a" is missing and `n2`'s agent "b" is present,
the run records the diagnostic for `n1`, still reaches and executes `n2`
(whose sole dependency is the failed node), and reports no stranded
nodes. -/
theorem claim_C7 :
    (∀ (pool : List PoolEntry) (nodes : List DAGNode) (edges : List DAGEdge)
        (task : String) (fuel : Nat) (node : DAGNode) (restReady : List DAGNode)
        (acc : DagAcc),
      pool.find? (fun e => e.name == node.agent) = none →
      dagLoop pool nodes edges task (fuel + 1) (node :: restReady) acc =
        (match dagScanEdges nodes edges node.id (insertId acc.completed node.id)
            edges restReady with
         | none => none
         | some ready2 =>
           dagLoop pool nodes edges task fuel ready2
             { results := acc.results ++
                 ["❌ DAG: Agent '" ++ node.agent ++ "' not found for node " ++ node.id]
               completed := insertId acc.completed node.id
               node_results := acc.node_results
               log := acc.log })) ∧
    (∀ (g : String → String) (t1 t2 task : String),
      execute_dag [⟨"b", g⟩] [⟨"n1", "a", t1⟩, ⟨"n2", "b", t2⟩]
          [⟨"n1", "n2", none⟩] task =
        some (["❌ DAG: Agent 'a' not found for node n1",
              "Node n2 (b): " ++
                g ("Task: " ++ t2 ++ ". Context: " ++ "" ++ ". Original: " ++ task)],
          [{ agent := "b",
             input := "Task: " ++ t2 ++ ". Context: " ++ "" ++ ". Original: " ++ task,
             output := g ("Task: " ++ t2 ++ ". Context: " ++ ""
               ++ ". Original: " ++ task) }])) := by
  constructor
  · intro pool nodes edges task fuel node restReady acc h
    simp only [dagLoop, h]
  · intro g t1 t2 task
    rfl

/-- Witness for C7 with its hypothesis discharged at a concrete input. -/
theorem claim_C7_witness :
    dagLoop [] [⟨"n1", "a", "t1"⟩] [] "t" 2 [⟨"n1", "a", "t1"⟩] ⟨[], [], [], []⟩ =
      (match dagScanEdges [⟨"n1", "a", "t1"⟩] [] "n1" (insertId [] "n1") [] [] with
       | none => none
       | some ready2 =>
         dagLoop [] [⟨"n1", "a", "t1"⟩] [] "t" 1 ready2
           { results := [] ++ ["❌ DAG: Agent '" ++ "a" ++ "' not found for node " ++ "n1"]
             completed := insertId [] "n1"
             node_results := []
             log := [] }) :=
  claim_C7.1 [] [⟨"n1", "a", "t1"⟩] [] "t" 1 ⟨"n1", "a", "t1"⟩ [] ⟨[], [], [], []⟩ rfl

/-- C2 counterexample: a DAG whose edge list contains an edge whose `to` id
names no declared node makes `execute` panic (the `.unwrap()` in
`execute_dag`), modelled as `none`, instead of producing a diagnostic
string in the trace. -/
theorem claim_C2_counterexample :
    execute [] (TeamWorkflow.DAG [⟨"n1", "a", "t1"⟩] [⟨"n1", "ghost", none⟩]) "task" =
      none :=
  rfl

/-- Every DAG edge's `to` id names a declared node (vacuously true for the
non-DAG topologies, which have no edge list). -/
def edgeTargetsDeclared : TeamWorkflow → Prop
  | TeamWorkflow.DAG nodes edges => ∀ e ∈ edges, ∃ n ∈ nodes, n.id = e.to_
  | _ => True

theorem dagScanEdges_isSome (nodes : List DAGNode) (allEdges : List DAGEdge)
    (nodeId : String) (completed : List String) :
    ∀ (es : List DAGEdge) (ready : List DAGNode),
      (∀ e ∈ es, (nodes.find? (fun n => n.id == e.to_)).isSome) →
      ∃ r, dagScanEdges nodes allEdges nodeId completed es ready = some r := by
  intro es
  induction es with
  | nil => intro ready _; exact ⟨ready, rfl⟩
  | cons edge rest ih =>
    intro ready h
    have hrest := fun e he => h e (List.mem_cons_of_mem edge he)
    by_cases hfrom : (edge.from_ == nodeId) = true
    · obtain ⟨target, htarget⟩ := Option.isSome_iff_exists.mp
        (h edge (List.mem_cons_self edge rest))
      cases hpush : ((allEdges.filter (fun e => e.to_ == target.id)).all
          (fun e => completed.contains e.from_)
            && !(ready.contains target)) with
      | true =>
        obtain ⟨r, hr⟩ := ih (ready ++ [target]) hrest
        refine ⟨r, ?_⟩
        simp only [dagScanEdges]
        rw [if_pos hfrom]
        simp only [htarget]
        rw [if_pos hpush]
        exact hr
      | false =>
        obtain ⟨r, hr⟩ := ih ready hrest
        refine ⟨r, ?_⟩
        simp only [dagScanEdges]
        rw [if_pos hfrom]
        simp only [htarget]
        rw [if_neg (by rw [hpush]; exact Bool.false_ne_true)]
        exact hr
    · obtain ⟨r, hr⟩ := ih ready hrest
      exact ⟨r, by simp [dagScanEdges, hfrom, hr]⟩

theorem dagLoop_isSome (pool : List PoolEntry) (nodes : List DAGNode)
    (edges : List DAGEdge) (task : String)
    (h : ∀ e ∈ edges, (nodes.find? (fun n => n.id == e.to_)).isSome) :
    ∀ (fuel : Nat) (ready : List DAGNode) (acc : DagAcc),
      ∃ acc2, dagLoop pool nodes edges task fuel ready acc = some acc2 := by
  intro fuel
  induction fuel with
  | zero => intro ready acc; exact ⟨acc, rfl⟩
  | succ f ih =>
    intro ready acc
    cases ready with
    | nil => exact ⟨acc, rfl⟩
    | cons node restReady =>
      rcases hfind : pool.find? (fun e => e.name == node.agent) with _ | e
      · obtain ⟨r, hscan⟩ := dagScanEdges_isSome nodes edges node.id
          (insertId acc.completed node.id) edges restReady (fun e he => h e he)
        obtain ⟨acc2, hrec⟩ := ih r _
        exact ⟨acc2, by simp only [dagLoop, hfind, hscan]; exact hrec⟩
      · obtain ⟨r, hscan⟩ := dagScanEdges_isSome nodes edges node.id
          (insertId acc.completed node.id) edges restReady (fun e he => h e he)
        obtain ⟨acc2, hrec⟩ := ih r _
        exact ⟨acc2, by simp only [dagLoop, hfind, hscan]; exact hrec⟩

/-- C2 (amended): `execute` returns a value — every failure path (missing
agent, stranded/cyclic DAG nodes, unmatched FSM state) yields a diagnostic
string in the trace — for every topology, pool, and task, PROVIDED that in
the DAG case every edge's `to` id names a declared node; an edge whose `to`
names no declared node instead panics (the `.unwrap()`), as the
counterexample shows. -/
theorem claim_C2_amended (pool : List PoolEntry) (workflow : TeamWorkflow)
    (task : String) (h : edgeTargetsDeclared workflow) :
    ∃ r, execute pool workflow task = some r := by
  cases workflow with
  | RoundRobin => exact ⟨_, rfl⟩
  | ChainOfThought => exact ⟨_, rfl⟩
  | Parallel => exact ⟨_, rfl⟩
  | FSM states ts initial => exact ⟨_, rfl⟩
  | DAG nodes edges =>
    have hfind : ∀ e ∈ edges, (nodes.find? (fun n => n.id == e.to_)).isSome := by
      intro e he
      obtain ⟨n, hn, hid⟩ := h e he
      exact List.find?_isSome.mpr ⟨n, hn, by simp [hid]⟩
    obtain ⟨acc, hacc⟩ := dagLoop_isSome pool nodes edges task hfind
      (dagFuel nodes edges)
      (nodes.filter (fun node => !(edges.any (fun edge => edge.to_ == node.id))))
      ⟨[], [], [], []⟩
    simp only [execute, execute_dag, hacc]
    exact ⟨_, rfl⟩

/-- Witness for the amended C2 with its hypothesis discharged at a concrete
input. -/
theorem claim_C2_amended_witness :
    ∃ r, execute [] (TeamWorkflow.DAG [⟨"n1", "a", "t1"⟩] []) "task" = some r :=
  claim_C2_amended [] (TeamWorkflow.DAG [⟨"n1", "a", "t1"⟩] []) "task"
    (by intro e he; cases he)

end Agno
